import Mathlib

/-!
# Verification of the CHIP-8 emulator core (`src/chip8_emulator.cpp`)

This file gives a shallow embedding of the emulator state and of the
cycle driver `emulate_cycle`, the opcode helpers
`emulate_0x0NNN_opcode_cycle`, `emulate_0x8XYN_opcode_cycle`,
`emulate_0xFXNN_opcode_cycle`, the sprite-drawing loop of the `0xDXYN`
case, and the input-delivery routine `update_user_input`, all translated
from the first (namespace-global) variant of `chip8_emulator.cpp`.

Machine integers are modelled as `Nat` with explicit reductions:
`uint8_t` values are reduced `% 256` at the points where the C code
performs 8-bit arithmetic, `uint16_t` values `% 65536`, and the
`uint64_t` cycle counter `% 2 ^ 64`.  The C arrays (`memory`, `gfx`,
`stack_trace`, `V`, `input`) are modelled as total functions from the
index type `Nat`, which also lets out-of-range writes (which the C code
does not guard against) be observed in the model.  `assert`s and
`panic_opcode` are modelled as `Except` errors, since both abort the
interpreter session.
-/

namespace Chip8

/-- Fatal conditions of the interpreter: a failed `assert` or the
`panic_opcode` call on an unknown opcode bit pattern. -/
inductive EmuErr where
  | assertFailed : EmuErr
  | unknownOpcode : EmuErr
  deriving DecidableEq, Repr

/-- The emulator state: the namespace-level globals of
`chip8_emulator.cpp` gathered into one record.  `draw_flag` and
`beep_flag` model the two `chip8::sync_flag` objects. -/
structure Chip8State where
  memory : Nat → Nat
  gfx : Nat → Bool
  stack_trace : Nat → Nat
  V : Nat → Nat
  input : Nat → Bool
  idx : Nat
  pc : Nat
  sp : Nat
  delay_timer : Nat
  sound_timer : Nat
  register_awaiting_input : Option Nat
  cycles_emulated : Nat
  draw_flag : Bool
  beep_flag : Bool

/-- Pointwise update of an array modelled as a total function
(`a[i] = v`). -/
def upd {α : Type} (f : Nat → α) (i : Nat) (v : α) : Nat → α :=
  fun j => if j = i then v else f j

/-- Read of a `uint8_t` register `V[i]` (the stored value reduced to a
byte). -/
def gV (s : Chip8State) (i : Nat) : Nat := s.V i % 256

/-- Read of a byte of `memory` (a `uint8_t` array). -/
def readMem (s : Chip8State) (a : Nat) : Nat := s.memory a % 256

/-- The big-endian 16-bit opcode fetched at `pc`:
`(read_mem_byte_at(pc) << 8) | read_mem_byte_at(pc + 1)`. -/
def opcodeAt (s : Chip8State) : Nat := readMem s s.pc * 256 + readMem s (s.pc + 1)

/-- Translation of `ith_hex_digit<1>`: the X register-index nibble of an opcode. -/
def hexDigit1 (op : Nat) : Nat := op / 256 % 16

/-- Translation of `ith_hex_digit<2>`: the Y register-index nibble of an opcode. -/
def hexDigit2 (op : Nat) : Nat := op / 16 % 16

/-- Translation of `emulate_0x0NNN_opcode_cycle`: `00E0` clears the screen and sets the
draw flag; `00EE` pops the stack into `pc` (with `assert(sp > 0)`);
anything else panics. -/
def emulate_0x0NNN_opcode_cycle (op : Nat) (s : Chip8State) : Except EmuErr Chip8State :=
  if op = 0x00E0 then
    .ok { s with gfx := fun _ => false, draw_flag := true }
  else if op = 0x00EE then
    if s.sp = 0 then .error .assertFailed
    else .ok { s with sp := s.sp - 1, pc := s.stack_trace (s.sp - 1) % 65536 }
  else .error .unknownOpcode

/-- Write register `V[i] := v` (value already reduced to a byte by the
caller where the C arithmetic wraps). -/
def setV (s : Chip8State) (i v : Nat) : Chip8State :=
  { s with V := upd s.V i v }

/-- Translation of `emulate_0x8XYN_opcode_cycle`: the arithmetic/logic group.  The two
register writes of each case are performed sequentially in source
order (`Vf` first where the C code writes `Vf` first), which reproduces
the aliasing behaviour when `X` or `Y` is `0xF`. -/
def emulate_0x8XYN_opcode_cycle (op : Nat) (s : Chip8State) : Except EmuErr Chip8State :=
  let X := hexDigit1 op
  let Y := hexDigit2 op
  if op % 16 = 0 then .ok (setV s X (gV s Y))
  else if op % 16 = 1 then .ok (setV s X (gV s X ||| gV s Y))
  else if op % 16 = 2 then .ok (setV s X (gV s X &&& gV s Y))
  else if op % 16 = 3 then .ok (setV s X (gV s X ^^^ gV s Y))
  else if op % 16 = 4 then
    let s1 := setV s 0xF (if gV s Y > 0xFF - gV s X then 1 else 0)
    .ok (setV s1 X ((gV s1 X + gV s1 Y) % 256))
  else if op % 16 = 5 then
    let s1 := setV s 0xF (if gV s X > gV s Y then 1 else 0)
    .ok (setV s1 X ((gV s1 X + 256 - gV s1 Y) % 256))
  else if op % 16 = 6 then
    let s1 := setV s 0xF (gV s X &&& 1)
    .ok (setV s1 X (gV s1 X / 2))
  else if op % 16 = 7 then
    let s1 := setV s 0xF (if gV s Y > gV s X then 1 else 0)
    .ok (setV s1 X ((gV s1 Y + 256 - gV s1 X) % 256))
  else if op % 16 = 0xE then
    let s1 := setV s 0xF (if gV s X ≥ 128 then 1 else 0)
    .ok (setV s1 X (gV s1 X * 2 % 256))
  else .error .unknownOpcode

/-- Accumulator of the `0xDXYN` drawing loops: the pixel grid, the
register file (`Vf = 1` collision writes land in `V` at index `0xF`
mid-loop, exactly as the C writes through the `V[0xF]` reference), and
the `screen_updated` flag. -/
structure DrawAcc where
  g : Nat → Bool
  V : Nat → Nat
  upd : Bool

/-- The inner `while (sprite_bits != 0)` loop of the `0xDXYN` case: `j`
starts at 7 and decrements while the sprite byte is shifted right; each
set bit XOR-draws the pixel at `((Vx + j) % 64, y)`, where `Vx` is the
register `V[X]` re-read from the current register file on every
iteration (the C reads it through a reference); a collision writes
`V[0xF] := 1` immediately, so when `X = 0xF` later columns of the same
draw shift. -/
def drawRowGo (X y : Nat) (bits j : Nat) (acc : DrawAcc) : DrawAcc :=
  if hb : bits = 0 then acc
  else
    let x := (acc.V X % 256 + j) % 64
    let p := y * 64 + x
    let old := acc.g p
    let np := xor (bits % 2 = 1) old
    drawRowGo X y (bits / 2) (j - 1)
      ⟨upd acc.g p np, if old && !np then upd acc.V 0xF 1 else acc.V,
        acc.upd || (old != np)⟩
termination_by bits
decreasing_by exact Nat.div_lt_self (Nat.pos_of_ne_zero hb) one_lt_two

/-- The outer `for (i = 0; i < N; i++)` loop of `0xDXYN` over the sprite
rows, row `i` drawn at screen row `(Vy + i) % 32` from the sprite byte
`memory[idx + i]`, with `Vy = V[Y]` re-read from the current register
file at the start of each row. -/
def drawRows (mem : Nat → Nat) (X Y iidx : Nat) : List Nat → DrawAcc → DrawAcc
  | [], acc => acc
  | i :: rest, acc =>
      drawRows mem X Y iidx rest
        (drawRowGo X ((acc.V Y % 256 + i) % 32) (mem (iidx + i) % 256) 7 acc)

/-- The complete drawing loop of the `0xDXYN` case: `Vf = 0` is written
to the register file first (so a coordinate register `V[X]` with
`X = 0xF` is read as 0 until a collision), then the rows are drawn with
`screen_updated` initially false. -/
def drawSprite (mem : Nat → Nat) (X Y iidx n : Nat) (V : Nat → Nat)
    (gfx : Nat → Bool) : DrawAcc :=
  drawRows mem X Y iidx (List.range n) ⟨gfx, upd V 0xF 0, false⟩

/-- Translation of `emulate_0xFXNN_opcode_cycle`: timer, input-wait, index and memory
block transfer opcodes.  The `FX0A` case only records the awaiting
register; the caller's `pc`/cycle epilogue is not suppressed by the
early `return` (it only skips the rest of this helper). -/
def emulate_0xFXNN_opcode_cycle (op : Nat) (s : Chip8State) : Except EmuErr Chip8State :=
  let X := hexDigit1 op
  let I := s.idx
  if op % 256 = 0x07 then .ok (setV s X (s.delay_timer % 256))
  else if op % 256 = 0x0A then .ok { s with register_awaiting_input := some X }
  else if op % 256 = 0x15 then .ok { s with delay_timer := gV s X }
  else if op % 256 = 0x18 then
    let old := s.sound_timer % 256
    let nv := gV s X
    .ok { s with sound_timer := nv,
                 beep_flag := if nv > 0 && old = 0 then true
                              else if nv = 0 && old > 0 then false
                              else s.beep_flag }
  else if op % 256 = 0x1E then .ok { s with idx := (s.idx + gV s X) % 65536 }
  else if op % 256 = 0x29 then
    if 5 * gV s X < 80 then .ok { s with idx := 5 * gV s X }
    else .error .assertFailed
  else if op % 256 = 0x33 then
    let m1 := upd s.memory I (gV s X / 100 % 10)
    let m2 := upd m1 (I + 1) (gV s X / 10 % 10)
    let m3 := upd m2 (I + 2) (gV s X % 10)
    .ok { s with memory := m3 }
  else if op % 256 = 0x55 then
    let m1 := (List.range (X + 1)).foldl (fun m i => upd m (I + i) (gV s i)) s.memory
    .ok { s with memory := m1 }
  else if op % 256 = 0x65 then
    let v1 := (List.range (X + 1)).foldl (fun v i => upd v i (readMem s (I + i))) s.V
    .ok { s with V := v1 }
  else .error .unknownOpcode

/-- The opcode dispatch switch of `emulate_cycle`, returning the state
after the selected case together with the `bump_pc` flag (cleared only
by `1NNN`, `2NNN` and `BNNN`).  `r` is the value returned by the
`rand()` call of the `CXKK` case. -/
def exec_opcode (r op : Nat) (s : Chip8State) : Except EmuErr (Chip8State × Bool) :=
  let X := hexDigit1 op
  let Y := hexDigit2 op
  let NNN := op % 4096
  let KK := op % 256
  if op / 4096 = 0x0 then
    (emulate_0x0NNN_opcode_cycle op s).map (fun t => (t, true))
  else if op / 4096 = 0x1 then
    .ok ({ s with pc := NNN }, false)
  else if op / 4096 = 0x2 then
    .ok ({ s with stack_trace := upd s.stack_trace s.sp (s.pc % 65536),
                  sp := (s.sp + 1) % 65536, pc := NNN }, false)
  else if op / 4096 = 0x3 then
    .ok (if gV s X = KK then { s with pc := (s.pc + 2) % 65536 } else s, true)
  else if op / 4096 = 0x4 then
    .ok (if gV s X ≠ KK then { s with pc := (s.pc + 2) % 65536 } else s, true)
  else if op / 4096 = 0x5 then
    .ok (if gV s X = gV s Y then { s with pc := (s.pc + 2) % 65536 } else s, true)
  else if op / 4096 = 0x6 then
    .ok (setV s X KK, true)
  else if op / 4096 = 0x7 then
    .ok (setV s X ((gV s X + KK) % 256), true)
  else if op / 4096 = 0x8 then
    (emulate_0x8XYN_opcode_cycle op s).map (fun t => (t, true))
  else if op / 4096 = 0x9 then
    .ok (if gV s X ≠ gV s Y then { s with pc := (s.pc + 2) % 65536 } else s, true)
  else if op / 4096 = 0xA then
    .ok ({ s with idx := NNN }, true)
  else if op / 4096 = 0xB then
    .ok ({ s with pc := (gV s 0 + NNN) % 65536 }, false)
  else if op / 4096 = 0xC then
    .ok (setV s X (r &&& 255 &&& KK), true)
  else if op / 4096 = 0xD then
    let acc := drawSprite s.memory X Y s.idx (op % 16) s.V s.gfx
    .ok ({ s with gfx := acc.g, V := acc.V,
                  draw_flag := s.draw_flag || acc.upd }, true)
  else if op / 4096 = 0xE then
    if gV s X < 16 then
      if op % 256 = 0x9E then
        .ok (if s.input (gV s X) then { s with pc := (s.pc + 2) % 65536 } else s, true)
      else if op % 256 = 0xA1 then
        .ok (if !s.input (gV s X) then { s with pc := (s.pc + 2) % 65536 } else s, true)
      else .error .unknownOpcode
    else .error .assertFailed
  else if op / 4096 = 0xF then
    (emulate_0xFXNN_opcode_cycle op s).map (fun t => (t, true))
  else .error .unknownOpcode

/-- Translation of `emulate_cycle`: the cycle driver.  Returns immediately if a
register is awaiting input; otherwise fetches the opcode at `pc`
(asserting both fetch addresses are in bounds), executes the opcode
case, then advances `pc` by 2 unless `bump_pc` was cleared and
increments `cycles_emulated` — this epilogue also runs for `FX0A`. -/
def emulate_cycle (r : Nat) (s : Chip8State) : Except EmuErr Chip8State :=
  match s.register_awaiting_input with
  | some _ => .ok s
  | none =>
    if s.pc + 1 < 4096 then
      (exec_opcode r (opcodeAt s) s).map fun tb =>
        { tb.1 with pc := if tb.2 then (tb.1.pc + 2) % 65536 else tb.1.pc,
                    cycles_emulated := (tb.1.cycles_emulated + 1) % 2 ^ 64 }
    else .error .assertFailed

/-- Sequencing of several `emulate_cycle` invocations, each fed its own
`rand()` stream value. -/
def emulate_cycles : List Nat → Chip8State → Except EmuErr Chip8State
  | [], s => .ok s
  | r :: rest, s => (emulate_cycle r s).bind (emulate_cycles rest)

/-- Translation of `update_user_input`: the external input-delivery call.  If a
register is awaiting input, the lowest key index with a false-to-true
edge (not pressed in the latch, pressed in the delivered state)
resolves the wait: `V[X] := key`, the wait is cleared, `pc` advances by
2 and the cycle counter is incremented.  Afterwards the 16-key latch is
overwritten with the delivered states. -/
def update_user_input (newInput : Nat → Bool) (s : Chip8State) : Chip8State :=
  let s1 :=
    match s.register_awaiting_input with
    | some X =>
      match (List.range 16).find? (fun k => !s.input k && newInput k) with
      | some k =>
          { s with V := upd s.V X k,
                   register_awaiting_input := none,
                   pc := (s.pc + 2) % 65536,
                   cycles_emulated := (s.cycles_emulated + 1) % 2 ^ 64 }
      | none => s
    | none => s
  { s1 with input := fun i => if i < 16 then newInput i else s1.input i }

/-! ## Concrete states used by witnesses and counterexamples -/

/-- The post-`reset()` register file and flags with blank memory: the
base state from which the concrete test states below are built. -/
def testState : Chip8State where
  memory := fun _ => 0
  gfx := fun _ => false
  stack_trace := fun _ => 0
  V := fun _ => 0
  input := fun _ => false
  idx := 0
  pc := 0x200
  sp := 0
  delay_timer := 0
  sound_timer := 0
  register_awaiting_input := none
  cycles_emulated := 0
  draw_flag := false
  beep_flag := false

/-- A state whose fetched opcode is `F30A` (wait for a key into V3). -/
def waitKeyState : Chip8State :=
  { testState with
    memory := fun a => if a = 0x200 then 0xF3 else if a = 0x201 then 0x0A else 0 }

/-- A state with a full stack (`sp = 16`) whose fetched opcode is
`2300` (CALL 0x300). -/
def fullStackState : Chip8State :=
  { testState with
      sp := 16
      memory := fun a => if a = 0x200 then 0x23 else 0 }

/-- A state with an empty stack whose fetched opcode is `00EE`
(RET). -/
def emptyStackRetState : Chip8State :=
  { testState with
    memory := fun a => if a = 0x201 then 0xEE else 0 }

/-! ## Claim theorems -/

/-- Claim C1 (code bug evidence): on the state whose fetched opcode is
`F30A`, the cycle-driver invocation sets `register_awaiting_input` to 3
but, contrary to the specification, advances `pc` from 0x200 to 0x202
and increments `cycles_emulated` from 0 to 1, because the early
`return` in `emulate_0xFXNN_opcode_cycle` does not suppress the
`bump_pc`/`cycles_emulated++` epilogue of the caller `emulate_cycle`. -/
theorem fx0a_cycle_advances_pc_and_counter :
    (emulate_cycle 0 waitKeyState).toOption.map
        (fun t => (t.pc, t.cycles_emulated, t.register_awaiting_input)) =
      some (0x202, 1, some 3) := by
  decide

/-- Claim C8: while a register is awaiting input, a cycle-driver
invocation returns the state unchanged, and so does any sequence of
consecutive invocations. -/
theorem awaiting_input_cycle_is_noop (s : Chip8State) (x : Nat)
    (h : s.register_awaiting_input = some x) :
    (∀ r, emulate_cycle r s = .ok s) ∧ ∀ rs, emulate_cycles rs s = .ok s := by
  have h1 : ∀ r, emulate_cycle r s = .ok s := by
    intro r
    unfold emulate_cycle
    rw [h]
  refine ⟨h1, ?_⟩
  intro rs
  induction rs with
  | nil => rfl
  | cons r rest ih => simp [emulate_cycles, h1 r, Except.bind, ih]

/-- Witness for C8 at a concrete awaiting state. -/
theorem awaiting_input_cycle_is_noop_witness :
    (∀ r, emulate_cycle r { testState with register_awaiting_input := some 3 } =
        .ok { testState with register_awaiting_input := some 3 }) ∧
      ∀ rs, emulate_cycles rs { testState with register_awaiting_input := some 3 } =
        .ok { testState with register_awaiting_input := some 3 } :=
  awaiting_input_cycle_is_noop { testState with register_awaiting_input := some 3 } 3 rfl

/-- Claim C3 (code bug evidence): the `2NNN` case has no stack-bound
check: on the state with `sp = 16` whose fetched opcode is `2300`, the
cycle succeeds, writes the return address 0x200 to `stack_trace[16]`
(past the 16-entry stack) and leaves `sp = 17`, violating the
`sp ≤ 16` invariant instead of failing with a stack-overflow error.
`00EE` with `sp = 0` does abort (the `assert(sp > 0)`). -/
theorem call_at_full_stack_writes_past_stack :
    (emulate_cycle 0 fullStackState).toOption.map
        (fun t => (t.sp, t.stack_trace 16, t.pc)) = some (17, 0x200, 0x300)
      ∧ emulate_cycle 0 emptyStackRetState = .error .assertFailed := by
  exact ⟨by decide, rfl⟩

/-- A state whose fetched opcode is `A123` (set index to 0x123). -/
def annnState : Chip8State :=
  { testState with
      memory := fun a => if a = 0x200 then 0xA1 else if a = 0x201 then 0x23 else 0 }

/-- Claim C4: an `ANNN` cycle sets the index register to `NNN` and
advances `pc` by exactly 2; the record-update form of the result shows
that registers, memory, stack, display and all other components are
unchanged. -/
theorem annn_sets_index_advances_pc (s : Chip8State) (r : Nat)
    (hA : s.register_awaiting_input = none) (hpc : s.pc + 1 < 4096)
    (hop : opcodeAt s / 4096 = 0xA) :
    emulate_cycle r s =
      .ok { s with idx := opcodeAt s % 4096, pc := s.pc + 2,
                   cycles_emulated := (s.cycles_emulated + 1) % 2 ^ 64 } := by
  have hmod : (s.pc + 2) % 65536 = s.pc + 2 := Nat.mod_eq_of_lt (by omega)
  unfold emulate_cycle
  rw [hA, if_pos hpc]
  unfold exec_opcode
  rw [hop]
  norm_num [Except.map, hmod, hA]

/-- Witness for C4 at a concrete `A123` state. -/
theorem annn_sets_index_advances_pc_witness :
    emulate_cycle 0 annnState =
      .ok { annnState with idx := opcodeAt annnState % 4096, pc := annnState.pc + 2,
                           cycles_emulated := (annnState.cycles_emulated + 1) % 2 ^ 64 } :=
  annn_sets_index_advances_pc annnState 0 rfl (by decide) (by decide)

/-- A state whose fetched opcode is `C50F` (V5 := rand AND 0x0F). -/
def cxkkState : Chip8State :=
  { testState with
      memory := fun a => if a = 0x200 then 0xC5 else if a = 0x201 then 0x0F else 0 }

/-- Claim C6: a `CXKK` cycle sets `Vx` to `rb AND KK` for a byte
`rb < 256`, every bit of the result that is zero in `KK` is zero, every
register other than `Vx` is unchanged (and the record-update form shows
memory and the display are unchanged), and `KK = 0` forces `Vx = 0`. -/
theorem cxkk_masks_random_byte (s : Chip8State) (r : Nat)
    (hA : s.register_awaiting_input = none) (hpc : s.pc + 1 < 4096)
    (hop : opcodeAt s / 4096 = 0xC) :
    emulate_cycle r s =
      .ok { s with V := upd s.V (hexDigit1 (opcodeAt s)) (r &&& 255 &&& opcodeAt s % 256),
                   pc := s.pc + 2, cycles_emulated := (s.cycles_emulated + 1) % 2 ^ 64 }
    ∧ (∃ rb, rb < 256 ∧ r &&& 255 &&& opcodeAt s % 256 = rb &&& opcodeAt s % 256)
    ∧ (∀ i, Nat.testBit (opcodeAt s % 256) i = false →
        Nat.testBit (r &&& 255 &&& opcodeAt s % 256) i = false)
    ∧ (∀ i, i ≠ hexDigit1 (opcodeAt s) →
        upd s.V (hexDigit1 (opcodeAt s)) (r &&& 255 &&& opcodeAt s % 256) i = s.V i)
    ∧ (opcodeAt s % 256 = 0 → r &&& 255 &&& opcodeAt s % 256 = 0) := by
  have hmod : (s.pc + 2) % 65536 = s.pc + 2 := Nat.mod_eq_of_lt (by omega)
  refine ⟨?_, ⟨r &&& 255, ?_, rfl⟩, ?_, ?_, ?_⟩
  · unfold emulate_cycle
    rw [hA, if_pos hpc]
    unfold exec_opcode
    rw [hop]
    norm_num [Except.map, hmod, setV, hA]
  · have h := @Nat.and_le_right r 255
    omega
  · intro i h
    simp [Nat.testBit_land, h]
  · intro i hi
    simp [upd, hi]
  · intro h
    rw [h]
    exact Nat.and_zero _

/-- Witness for C6 at a concrete `C50F` state. -/
theorem cxkk_masks_random_byte_witness :
    emulate_cycle 0xAB cxkkState =
      .ok { cxkkState with
              V := upd cxkkState.V (hexDigit1 (opcodeAt cxkkState))
                (0xAB &&& 255 &&& opcodeAt cxkkState % 256),
              pc := cxkkState.pc + 2,
              cycles_emulated := (cxkkState.cycles_emulated + 1) % 2 ^ 64 }
    ∧ (∃ rb, rb < 256 ∧ 0xAB &&& 255 &&& opcodeAt cxkkState % 256 =
        rb &&& opcodeAt cxkkState % 256)
    ∧ (∀ i, Nat.testBit (opcodeAt cxkkState % 256) i = false →
        Nat.testBit (0xAB &&& 255 &&& opcodeAt cxkkState % 256) i = false)
    ∧ (∀ i, i ≠ hexDigit1 (opcodeAt cxkkState) →
        upd cxkkState.V (hexDigit1 (opcodeAt cxkkState))
          (0xAB &&& 255 &&& opcodeAt cxkkState % 256) i = cxkkState.V i)
    ∧ (opcodeAt cxkkState % 256 = 0 → 0xAB &&& 255 &&& opcodeAt cxkkState % 256 = 0) :=
  cxkk_masks_random_byte cxkkState 0xAB rfl (by decide) (by decide)

/-- Claim C2: a `2NNN` cycle pushes the address of the CALL instruction
and jumps to `NNN`; any later `00EE` cycle executed from a state with
the same stack and stack pointer as just after the call (no intervening
stack operation) leaves `pc` at the address of the instruction
following the CALL. -/
theorem call_then_ret_resumes_after_call (s : Chip8State) (r r2 : Nat)
    (hA : s.register_awaiting_input = none) (hpc : s.pc + 1 < 4096)
    (hop : opcodeAt s / 4096 = 0x2) (hsp : s.sp < 16) :
    (∃ s1, emulate_cycle r s = .ok s1 ∧ s1.sp = s.sp + 1 ∧
        s1.stack_trace = upd s.stack_trace s.sp (s.pc % 65536) ∧
        s1.pc = opcodeAt s % 4096)
      ∧ ∀ s2, s2.register_awaiting_input = none → s2.pc + 1 < 4096 →
          opcodeAt s2 = 0x00EE → s2.sp = s.sp + 1 →
          s2.stack_trace = upd s.stack_trace s.sp (s.pc % 65536) →
          ∃ s3, emulate_cycle r2 s2 = .ok s3 ∧ s3.pc = s.pc + 2 := by
  constructor
  · have hstep : emulate_cycle r s = .ok
        { s with
            stack_trace := upd s.stack_trace s.sp (s.pc % 65536)
            sp := (s.sp + 1) % 65536
            pc := opcodeAt s % 4096
            cycles_emulated := (s.cycles_emulated + 1) % 2 ^ 64 } := by
      unfold emulate_cycle
      rw [hA, if_pos hpc]
      unfold exec_opcode
      rw [hop]
      norm_num [Except.map, hA]
    refine ⟨_, hstep, ?_, rfl, rfl⟩
    simp only
    omega
  · intro s2 h2A h2pc h2op h2sp h2st
    have hstep : emulate_cycle r2 s2 = .ok
        { s2 with
            sp := s2.sp - 1
            pc := (s2.stack_trace (s2.sp - 1) % 65536 + 2) % 65536
            cycles_emulated := (s2.cycles_emulated + 1) % 2 ^ 64 } := by
      unfold emulate_cycle
      rw [h2A, if_pos h2pc]
      unfold exec_opcode
      rw [h2op]
      unfold emulate_0x0NNN_opcode_cycle
      norm_num [Except.map, h2A, show ¬s2.sp = 0 by omega]
    refine ⟨_, hstep, ?_⟩
    simp only [h2st, h2sp, upd, Nat.add_sub_cancel]
    simp only [if_pos trivial, reduceIte]
    omega

/-- A state whose fetched opcode is `2300` (CALL 0x300). -/
def callState : Chip8State :=
  { testState with
      memory := fun a => if a = 0x200 then 0x23 else 0 }

/-- The state just after the CALL of `callState`, positioned on a `00EE`
(RET) opcode at 0x300. -/
def retState : Chip8State :=
  { testState with
      memory := fun a => if a = 0x301 then 0xEE else 0
      pc := 0x300
      sp := 1
      stack_trace := upd callState.stack_trace callState.sp (callState.pc % 65536) }

/-- Witness for C2: CALL at 0x200 then RET leaves `pc = 0x202`. -/
theorem call_then_ret_resumes_after_call_witness :
    (∃ s1, emulate_cycle 0 callState = .ok s1 ∧ s1.sp = callState.sp + 1 ∧
        s1.stack_trace = upd callState.stack_trace callState.sp (callState.pc % 65536) ∧
        s1.pc = opcodeAt callState % 4096)
      ∧ ∃ s3, emulate_cycle 0 retState = .ok s3 ∧ s3.pc = callState.pc + 2 := by
  have h := call_then_ret_resumes_after_call callState 0 0 rfl (by decide) (by decide)
    (by decide)
  exact ⟨h.1, h.2 retState rfl (by decide) (by decide) rfl rfl⟩

/-- A state whose fetched opcode is `80F4` (`ADD V0, VF`) with
`V0 = 0` and `VF = 5`. -/
def addAliasState : Chip8State :=
  { testState with
      memory := fun a => if a = 0x200 then 0x80 else if a = 0x201 then 0xF4 else 0
      V := fun i => if i = 15 then 5 else 0 }

/-- Claim C5 counterexample: executing `8XY4` with `Y = 0xF`
(`V0 = 0`, `VF = 5`) yields `V0 = 0` and `VF = 0`, while the claim
demands `V0 = (V0 + VF) mod 256 = 5`: the carry write to `VF` happens
before the addition and aliases the addend. -/
theorem add_carry_aliasing_counterexample :
    (emulate_cycle 0 addAliasState).toOption.map (fun t => (t.V 0, t.V 15)) = some (0, 0)
      ∧ (gV addAliasState 0 + gV addAliasState 15) % 256 = 5 := by
  exact ⟨by decide, by decide⟩

/-- Claim C5 (amended): for `X ≠ 0xF` and `Y ≠ 0xF`, an `8XY4` cycle
sets `VF` to 1 exactly when the integer sum of the old `Vx` and `Vy`
exceeds 255, and sets `Vx` to that sum modulo 256. -/
theorem add_with_carry (s : Chip8State) (r : Nat)
    (hA : s.register_awaiting_input = none) (hpc : s.pc + 1 < 4096)
    (hop8 : opcodeAt s / 4096 = 0x8) (hop4 : opcodeAt s % 16 = 4)
    (hX : hexDigit1 (opcodeAt s) ≠ 0xF) (hY : hexDigit2 (opcodeAt s) ≠ 0xF) :
    (emulate_cycle r s).toOption.map
        (fun t => (t.V 0xF, t.V (hexDigit1 (opcodeAt s)))) =
      some (if gV s (hexDigit1 (opcodeAt s)) + gV s (hexDigit2 (opcodeAt s)) > 255
              then 1 else 0,
            (gV s (hexDigit1 (opcodeAt s)) + gV s (hexDigit2 (opcodeAt s))) % 256) := by
  unfold emulate_cycle
  rw [hA, if_pos hpc]
  unfold exec_opcode
  rw [hop8]
  unfold emulate_0x8XYN_opcode_cycle
  rw [hop4]
  norm_num [Except.map, Except.toOption, setV]
  constructor
  · simp only [upd, if_neg (Ne.symm hX), eq_self_iff_true, if_true]
    have hiff : (255 - gV s (hexDigit1 (opcodeAt s)) < gV s (hexDigit2 (opcodeAt s))) ↔
        (255 < gV s (hexDigit1 (opcodeAt s)) + gV s (hexDigit2 (opcodeAt s))) := by
      unfold gV
      omega
    exact if_congr hiff rfl rfl
  · simp [upd, gV, hX, hY, Ne.symm hX]

/-- A state whose fetched opcode is `8124` (`ADD V1, V2`) with
`V1 = 0xFF` and `V2 = 1`. -/
def addCarryState : Chip8State :=
  { testState with
      memory := fun a => if a = 0x200 then 0x81 else if a = 0x201 then 0x24 else 0
      V := fun i => if i = 1 then 0xFF else if i = 2 then 1 else 0 }

/-- Witness for the amended C5: `V1 = 0xFF` plus `V2 = 1` overflows to
`V1 = 0` with carry `VF = 1`. -/
theorem add_with_carry_witness :
    (emulate_cycle 0 addCarryState).toOption.map
        (fun t => (t.V 0xF, t.V (hexDigit1 (opcodeAt addCarryState)))) =
      some (if gV addCarryState (hexDigit1 (opcodeAt addCarryState)) +
              gV addCarryState (hexDigit2 (opcodeAt addCarryState)) > 255
              then 1 else 0,
            (gV addCarryState (hexDigit1 (opcodeAt addCarryState)) +
              gV addCarryState (hexDigit2 (opcodeAt addCarryState))) % 256) :=
  add_with_carry addCarryState 0 rfl (by decide) (by decide) (by decide) (by decide)
    (by decide)

/-- Claim C7: while a register is awaiting input, an input-delivery
call resolves the wait exactly when some key has a false-to-true edge;
resolution stores an edge key into `V[x]`, clears the wait, advances
`pc` by 2 and increments the cycle counter, while a delivery without
any newly-pressed key (releases or keys already held) changes neither
the wait, the registers, `pc` nor the cycle counter. -/
theorem update_user_input_edge_resolves (s : Chip8State) (x : Nat) (newInput : Nat → Bool)
    (h : s.register_awaiting_input = some x) :
    ((∃ k, k < 16 ∧ s.input k = false ∧ newInput k = true) →
        ∃ k, k < 16 ∧ s.input k = false ∧ newInput k = true ∧
          (update_user_input newInput s).V x = k ∧
          (update_user_input newInput s).register_awaiting_input = none ∧
          (update_user_input newInput s).pc = (s.pc + 2) % 65536 ∧
          (update_user_input newInput s).cycles_emulated =
            (s.cycles_emulated + 1) % 2 ^ 64)
      ∧ ((¬∃ k, k < 16 ∧ s.input k = false ∧ newInput k = true) →
          (update_user_input newInput s).register_awaiting_input = some x ∧
          (update_user_input newInput s).V = s.V ∧
          (update_user_input newInput s).pc = s.pc ∧
          (update_user_input newInput s).cycles_emulated = s.cycles_emulated) := by
  unfold update_user_input
  rw [h]
  cases hf : (List.range 16).find? (fun k => !s.input k && newInput k) with
  | some k =>
    have hpk := List.find?_some hf
    have hmem : k < 16 := List.mem_range.mp (List.mem_of_find?_eq_some hf)
    rw [Bool.and_eq_true, Bool.not_eq_true'] at hpk
    constructor
    · intro _
      exact ⟨k, hmem, hpk.1, hpk.2, by simp [upd], rfl, rfl, rfl⟩
    · intro hnex
      exact absurd ⟨k, hmem, hpk.1, hpk.2⟩ hnex
  | none =>
    have hnone := List.find?_eq_none.mp hf
    constructor
    · intro hex
      obtain ⟨k, hk16, hik, hnk⟩ := hex
      have : (!s.input k && newInput k) = true := by simp [hik, hnk]
      exact absurd this (hnone k (List.mem_range.mpr hk16))
    · intro _
      exact ⟨h, rfl, rfl, rfl⟩

/-- A state awaiting a key for V2, with no keys latched. -/
def awaitingKeyState : Chip8State :=
  { testState with register_awaiting_input := some 2 }

/-- Witness for C7: delivering a press of key 5 to a state awaiting a
key for V2. -/
theorem update_user_input_edge_resolves_witness :
    ((∃ k, k < 16 ∧ awaitingKeyState.input k = false ∧ (fun i => i == 5) k = true) →
        ∃ k, k < 16 ∧ awaitingKeyState.input k = false ∧ (fun i => i == 5) k = true ∧
          (update_user_input (fun i => i == 5) awaitingKeyState).V 2 = k ∧
          (update_user_input (fun i => i == 5) awaitingKeyState).register_awaiting_input
            = none ∧
          (update_user_input (fun i => i == 5) awaitingKeyState).pc =
            (awaitingKeyState.pc + 2) % 65536 ∧
          (update_user_input (fun i => i == 5) awaitingKeyState).cycles_emulated =
            (awaitingKeyState.cycles_emulated + 1) % 2 ^ 64)
      ∧ ((¬∃ k, k < 16 ∧ awaitingKeyState.input k = false ∧ (fun i => i == 5) k = true) →
          (update_user_input (fun i => i == 5) awaitingKeyState).register_awaiting_input
            = some 2 ∧
          (update_user_input (fun i => i == 5) awaitingKeyState).V = awaitingKeyState.V ∧
          (update_user_input (fun i => i == 5) awaitingKeyState).pc = awaitingKeyState.pc ∧
          (update_user_input (fun i => i == 5) awaitingKeyState).cycles_emulated =
            awaitingKeyState.cycles_emulated) :=
  update_user_input_edge_resolves awaitingKeyState 2 (fun i => i == 5) rfl

/-- Lemma: `exec_opcode` does not depend on the `rand()` input unless the
opcode's top nibble is `0xC`. -/
theorem exec_opcode_rand_free (r1 r2 op : Nat) (s : Chip8State) (h : op / 4096 ≠ 0xC) :
    exec_opcode r1 op s = exec_opcode r2 op s := by
  have hc : (op / 4096 = 0xC) = False := eq_false h
  simp only [exec_opcode, hc, if_false]

/-- A state whose fetched opcode is `C0FF` (V0 := rand AND 0xFF). -/
def rndState : Chip8State :=
  { testState with
      memory := fun a => if a = 0x200 then 0xC0 else if a = 0x201 then 0xFF else 0 }

/-- Claim C10: the cycle driver is a function of the emulator state
alone whenever the fetched opcode is not `CXKK` (two invocations from
the same state with different `rand()` streams agree), and `CXKK` is
the only instruction whose successor may differ between runs. -/
theorem cycle_deterministic_except_cxkk :
    (∀ s r1 r2, opcodeAt s / 4096 ≠ 0xC → emulate_cycle r1 s = emulate_cycle r2 s)
      ∧ ∃ s r1 r2, opcodeAt s / 4096 = 0xC ∧ emulate_cycle r1 s ≠ emulate_cycle r2 s := by
  constructor
  · intro s r1 r2 hnc
    unfold emulate_cycle
    rw [exec_opcode_rand_free r1 r2 (opcodeAt s) s hnc]
  · refine ⟨rndState, 0, 1, by decide, ?_⟩
    intro hcontra
    have h0 : (emulate_cycle 0 rndState).toOption.map (fun t => t.V 0) = some 0 := by
      decide
    have h1 : (emulate_cycle 1 rndState).toOption.map (fun t => t.V 0) = some 1 := by
      decide
    rw [hcontra, h1] at h0
    exact absurd h0 (by decide)

/-- Witness for C10 at a concrete non-`CXKK` state. -/
theorem cycle_deterministic_except_cxkk_witness :
    emulate_cycle 5 annnState = emulate_cycle 7 annnState :=
  cycle_deterministic_except_cxkk.1 annnState 5 7 (by decide)

/-! ## DXYN drawing: XOR-mask characterisation -/

/-- The XOR footprint of one sprite row on pixel `p`: true when the row
loop of `drawRowGo` flips `p` an odd number of times, for a row whose
coordinate register reads a fixed byte `vx` throughout. -/
def rowMask (vx y bits j p : Nat) : Bool :=
  if hb : bits = 0 then false
  else
    xor (if bits % 2 = 1 ∧ p = y * 64 + (vx + j) % 64 then true else false)
      (rowMask vx y (bits / 2) (j - 1) p)
termination_by bits
decreasing_by exact Nat.div_lt_self (Nat.pos_of_ne_zero hb) one_lt_two

/-- The XOR footprint of a whole sprite on pixel `p`, for fixed
coordinate bytes `vx`, `vy`. -/
def rowsMask (mem : Nat → Nat) (vx vy iidx : Nat) : List Nat → Nat → Bool
  | [], _ => false
  | i :: rest, p =>
      xor (rowMask vx ((vy + i) % 32) (mem (iidx + i) % 256) 7 p)
        (rowsMask mem vx vy iidx rest p)

/-- The row loop writes no register other than `V[0xF]`. -/
theorem drawRowGo_V (X y i : Nat) (hi : i ≠ 0xF) : ∀ bits j (acc : DrawAcc),
    (drawRowGo X y bits j acc).V i = acc.V i := by
  intro bits
  induction bits using Nat.strong_induction_on with
  | _ bits ih =>
    intro j acc
    unfold drawRowGo
    split
    · rfl
    · rename_i hb
      rw [ih (bits / 2) (Nat.div_lt_self (Nat.pos_of_ne_zero hb) one_lt_two)]
      split
      · simp [upd, hi]
      · rfl

/-- While the coordinate register is not `V[0xF]` (so its value `vx` is
stable under the mid-loop collision writes), the row loop XORs its
footprint into the pixel grid. -/
theorem drawRowGo_g (X y vx : Nat) (hX : X ≠ 0xF) : ∀ bits j (acc : DrawAcc) p,
    acc.V X = vx →
    (drawRowGo X y bits j acc).g p = xor (acc.g p) (rowMask (vx % 256) y bits j p) := by
  intro bits
  induction bits using Nat.strong_induction_on with
  | _ bits ih =>
    intro j acc p hvx
    unfold drawRowGo rowMask
    split
    · simp
    · rename_i hb
      rw [ih (bits / 2) (Nat.div_lt_self (Nat.pos_of_ne_zero hb) one_lt_two) (j - 1) _ p
        (by split <;> simp [upd, hX, hvx])]
      simp only [upd, hvx]
      have hind : (if bits % 2 = 1 ∧ p = y * 64 + (vx % 256 + j) % 64 then true
            else false) =
          (decide (bits % 2 = 1) && decide (p = y * 64 + (vx % 256 + j) % 64)) := by
        by_cases h1 : bits % 2 = 1 <;> by_cases h2 : p = y * 64 + (vx % 256 + j) % 64 <;>
          simp [h1, h2]
      rw [hind]
      by_cases hp : p = y * 64 + (vx % 256 + j) % 64
      · rw [if_pos hp, decide_eq_true hp, Bool.and_true, ← hp]
        generalize acc.g p = a
        generalize rowMask (vx % 256) y (bits / 2) (j - 1) p = m
        generalize (decide (bits % 2 = 1) : Bool) = b
        cases a <;> cases b <;> cases m <;> rfl
      · rw [if_neg hp, decide_eq_false hp, Bool.and_false]
        simp

/-- The row loop never resets a collision already written to `V[0xF]`. -/
theorem drawRowGo_vf_one (X y : Nat) : ∀ bits j (acc : DrawAcc), acc.V 0xF = 1 →
    (drawRowGo X y bits j acc).V 0xF = 1 := by
  intro bits
  induction bits using Nat.strong_induction_on with
  | _ bits ih =>
    intro j acc h
    unfold drawRowGo
    split
    · exact h
    · rename_i hb
      apply ih (bits / 2) (Nat.div_lt_self (Nat.pos_of_ne_zero hb) one_lt_two)
      split
      · simp [upd]
      · exact h

/-- If the row's footprint covers a pixel that is lit when the row loop
starts, the loop writes `V[0xF] := 1`.  The bound `bits < 2 ^ (j + 1)`
holds at every entry (a sprite byte is `< 256 = 2 ^ 8` with `j = 7`)
and makes the in-row pixel positions distinct; `X ≠ 0xF` keeps the
coordinate byte `vx` stable. -/
theorem drawRowGo_vf_collide (X y vx : Nat) (hX : X ≠ 0xF) : ∀ bits j (acc : DrawAcc) p,
    acc.V X = vx → bits < 2 ^ (j + 1) → rowMask (vx % 256) y bits j p = true →
    acc.g p = true → (drawRowGo X y bits j acc).V 0xF = 1 := by
  intro bits
  induction bits using Nat.strong_induction_on with
  | _ bits ih =>
    intro j acc p hvx hlt hm hg
    unfold drawRowGo
    rw [rowMask] at hm
    split
    · rename_i hb
      rw [dif_pos hb] at hm
      exact absurd hm (by simp)
    · rename_i hb
      rw [dif_neg hb] at hm
      by_cases hcase : bits % 2 = 1 ∧ p = y * 64 + (vx % 256 + j) % 64
      · obtain ⟨hb2, hp⟩ := hcase
        apply drawRowGo_vf_one
        simp only [hvx, ← hp, hg, hb2]
        simp [upd]
      · rw [if_neg hcase] at hm
        rw [Bool.false_xor] at hm
        cases j with
        | zero =>
          have hb1 : bits = 1 := by omega
          rw [hb1] at hm
          have hz : rowMask (vx % 256) y (1 / 2) (0 - 1) p = false := by
            rw [rowMask]
            rfl
          rw [hz] at hm
          exact Bool.noConfusion hm
        | succ j2 =>
          apply ih (bits / 2) (Nat.div_lt_self (Nat.pos_of_ne_zero hb) one_lt_two)
            j2 _ p ?_ ?_ ?_ ?_
          · split <;> simp [upd, hX, hvx]
          · rw [Nat.div_lt_iff_lt_mul (by norm_num : (0:Nat) < 2), ← pow_succ]
            exact hlt
          · simpa using hm
          · by_cases hp : p = y * 64 + (vx % 256 + j2 + 1) % 64
            · have hb2 : ¬bits % 2 = 1 := fun h2 => hcase ⟨h2, by simpa using hp⟩
              simp only [upd, hvx]
              have hp2 : p = y * 64 + (vx % 256 + (j2 + 1)) % 64 := by simpa using hp
              rw [if_pos hp2, ← hp2]
              simp [hb2, hg]
            · simp only [upd, hvx]
              rw [if_neg (fun hc => hp (by simpa using hc))]
              exact hg

/-- A pixel in a row's footprint lies in that row's band of the
display. -/
theorem rowMask_row (vx y : Nat) : ∀ bits j p, rowMask vx y bits j p = true →
    p / 64 = y := by
  intro bits
  induction bits using Nat.strong_induction_on with
  | _ bits ih =>
    intro j p hm
    rw [rowMask] at hm
    by_cases hb : bits = 0
    · rw [dif_pos hb] at hm
      exact absurd hm (by simp)
    · rw [dif_neg hb] at hm
      by_cases hcase : bits % 2 = 1 ∧ p = y * 64 + (vx + j) % 64
      · have hx : (vx + j) % 64 < 64 := Nat.mod_lt _ (by norm_num)
        omega
      · rw [if_neg hcase, Bool.false_xor] at hm
        exact ih (bits / 2) (Nat.div_lt_self (Nat.pos_of_ne_zero hb) one_lt_two) (j - 1) p hm

/-- The sprite loop writes no register other than `V[0xF]`. -/
theorem drawRows_V (mem : Nat → Nat) (X Y iidx i : Nat) (hi : i ≠ 0xF) :
    ∀ (rows : List Nat) (acc : DrawAcc),
    (drawRows mem X Y iidx rows acc).V i = acc.V i := by
  intro rows
  induction rows with
  | nil => intro acc; rfl
  | cons hd tl ih =>
    intro acc
    rw [drawRows, ih, drawRowGo_V X _ i hi]

/-- With coordinate registers other than `V[0xF]` (register contents
`vx`, `vy` stable through the draw), the whole sprite loop XORs its
footprint into the pixel grid. -/
theorem drawRows_g (mem : Nat → Nat) (X Y iidx vx vy : Nat) (hX : X ≠ 0xF)
    (hY : Y ≠ 0xF) : ∀ (rows : List Nat) (acc : DrawAcc) (p : Nat),
    acc.V X = vx → acc.V Y = vy →
    (drawRows mem X Y iidx rows acc).g p =
      xor (acc.g p) (rowsMask mem (vx % 256) (vy % 256) iidx rows p) := by
  intro rows
  induction rows with
  | nil => intro acc p _ _; simp [drawRows, rowsMask]
  | cons i rest ih =>
    intro acc p hvx hvy
    rw [drawRows, ih _ p (by rw [drawRowGo_V X _ X hX]; exact hvx)
        (by rw [drawRowGo_V X _ Y hY]; exact hvy),
      drawRowGo_g X _ vx hX _ 7 acc p hvx, rowsMask, hvy]
    generalize acc.g p = a
    generalize rowMask (vx % 256) ((vy % 256 + i) % 32) (mem (iidx + i) % 256) 7 p = m1
    generalize rowsMask mem (vx % 256) (vy % 256) iidx rest p = m2
    cases a <;> cases m1 <;> cases m2 <;> rfl

/-- The sprite loop never resets a collision already written to
`V[0xF]`. -/
theorem drawRows_vf_one (mem : Nat → Nat) (X Y iidx : Nat) : ∀ (rows : List Nat)
    (acc : DrawAcc), acc.V 0xF = 1 → (drawRows mem X Y iidx rows acc).V 0xF = 1 := by
  intro rows
  induction rows with
  | nil => intro acc h; exact h
  | cons i rest ih =>
    intro acc h
    rw [drawRows]
    exact ih _ (drawRowGo_vf_one _ _ _ _ _ h)

/-- If exactly one row's footprint covers pixel `p` and `p` is lit when
the sprite loop starts, the loop writes `V[0xF] := 1` (coordinate
registers other than `V[0xF]`, contents `vx`, `vy`). -/
theorem drawRows_vf_collide (mem : Nat → Nat) (X Y iidx vx vy : Nat) (hX : X ≠ 0xF)
    (hY : Y ≠ 0xF) : ∀ (rows : List Nat) (acc : DrawAcc) (p i : Nat),
    acc.V X = vx → acc.V Y = vy → i ∈ rows →
    rowMask (vx % 256) ((vy % 256 + i) % 32) (mem (iidx + i) % 256) 7 p = true →
    (∀ i2 ∈ rows,
      rowMask (vx % 256) ((vy % 256 + i2) % 32) (mem (iidx + i2) % 256) 7 p = true →
      i2 = i) →
    acc.g p = true → (drawRows mem X Y iidx rows acc).V 0xF = 1 := by
  intro rows
  induction rows with
  | nil => intro acc p i _ _ hmem; exact absurd hmem (List.not_mem_nil i)
  | cons hd tl ih =>
    intro acc p i hvx hvy hmem hmi huniq hg
    rw [drawRows]
    by_cases hhd :
        rowMask (vx % 256) ((vy % 256 + hd) % 32) (mem (iidx + hd) % 256) 7 p = true
    · apply drawRows_vf_one
      rw [hvy]
      apply drawRowGo_vf_collide X ((vy % 256 + hd) % 32) vx hX (mem (iidx + hd) % 256)
        7 acc p hvx ?_ hhd hg
      have h8 : mem (iidx + hd) % 256 < 256 := Nat.mod_lt _ (by norm_num)
      norm_num
      omega
    · have hitl : i ∈ tl := by
        rcases List.mem_cons.mp hmem with h | h
        · exact absurd (h ▸ hmi) hhd
        · exact h
      apply ih _ p i (by rw [drawRowGo_V X _ X hX]; exact hvx)
        (by rw [drawRowGo_V X _ Y hY]; exact hvy) hitl hmi
        (fun i2 h2 hm2 => huniq i2 (List.mem_cons_of_mem hd h2) hm2)
      have hhd2 :
          rowMask (vx % 256) ((vy % 256 + hd) % 32) (mem (iidx + hd) % 256) 7 p =
            false :=
        Bool.eq_false_iff.mpr hhd
      rw [hvy, drawRowGo_g X _ vx hX _ 7 acc p hvx, hg, hhd2]
      rfl

/-- A pixel covered by the whole sprite's footprint is covered by some
row's footprint. -/
theorem rowsMask_exists (mem : Nat → Nat) (vx vy iidx : Nat) : ∀ (rows : List Nat)
    (p : Nat), rowsMask mem vx vy iidx rows p = true →
    ∃ i ∈ rows, rowMask vx ((vy + i) % 32) (mem (iidx + i) % 256) 7 p = true := by
  intro rows
  induction rows with
  | nil => intro p hm; exact absurd hm (by simp [rowsMask])
  | cons hd tl ih =>
    intro p hm
    rw [rowsMask] at hm
    by_cases hhd : rowMask vx ((vy + hd) % 32) (mem (iidx + hd) % 256) 7 p = true
    · exact ⟨hd, List.mem_cons_self hd tl, hhd⟩
    · simp only [Bool.not_eq_true] at hhd
      rw [hhd, Bool.false_xor] at hm
      obtain ⟨i, hi, hmi⟩ := ih p hm
      exact ⟨i, List.mem_cons_of_mem hd hi, hmi⟩

/-- A state whose fetched opcode is `D001` at 0x200 and again at 0x202,
with `idx = 0` pointing at an all-zero sprite row. -/
def blankSpriteState : Chip8State :=
  { testState with
      memory := fun a =>
        if a = 0x200 ∨ a = 0x202 then 0xD0
        else if a = 0x201 ∨ a = 0x203 then 0x01 else 0 }

/-- A state whose fetched opcode is `DF01` (`X = 0xF`) at 0x200 and
again at 0x202, with `idx = 0` pointing at the sprite byte `0x03` and
all registers zero. -/
def aliasedSpriteState : Chip8State :=
  { testState with
      memory := fun a =>
        if a = 0x200 ∨ a = 0x202 then 0xDF
        else if a = 0x201 ∨ a = 0x203 then 0x01
        else if a = 0 then 0x03 else 0 }

/-- Claim C9 counterexample, two parts.  First, an all-zero sprite row
(`D001` twice) flips nothing, so the second draw reports `VF = 0`, not
`VF = 1` as the claim states.  Second, with `X = 0xF` (`DF01`, sprite
byte `0x03`, blank display, identical `Vx`, `Vy`, index and sprite
memory at both executions) the display is not even restored: the first
draw lights pixels 6 and 7; during the second draw the collision at
pixel 7 writes `V[0xF] = 1`, shifting the next column read of
`Vx = V[0xF]` so it re-lights pixel 7 instead of clearing pixel 6,
which stays lit. -/
theorem dxyn_double_draw_counterexample :
    ((emulate_cycle 0 blankSpriteState).bind (emulate_cycle 0)).toOption.map
        (fun t => (t.V 15, t.gfx 0)) = some (0, false)
      ∧ ((emulate_cycle 0 aliasedSpriteState).bind (emulate_cycle 0)).toOption.map
          (fun t => (t.gfx 6, t.gfx 7, t.V 15)) = some (true, true, 1)
      ∧ aliasedSpriteState.gfx 6 = false := by
  refine ⟨?_, ?_, rfl⟩
  · simp [blankSpriteState, testState, emulate_cycle, exec_opcode, opcodeAt, readMem,
      hexDigit1, hexDigit2, setV, upd, gV, drawSprite, drawRows, drawRowGo,
      Except.bind, Except.map, Except.toOption, List.range_succ]
  · simp [aliasedSpriteState, testState, emulate_cycle, exec_opcode, opcodeAt, readMem,
      hexDigit1, hexDigit2, setV, upd, gV, drawSprite, drawRows, drawRowGo,
      Except.bind, Except.map, Except.toOption, List.range_succ]

/-- Claim C9 (amended): for coordinate registers other than `V[0xF]`
(`X ≠ 0xF` and `Y ≠ 0xF`, so the mid-draw collision write cannot alias
them — `Vx` and `Vy` are then automatically identical at both draws, as
the first two conjuncts prove), drawing the same `N`-row sprite
(`N ≤ 32`) at the same coordinates and index twice restores every
display pixel to its value before the first draw, and the second draw
sets `VF` to 1 provided the first draw turned at least one pixel on (a
blank sprite draws nothing and reports no collision). -/
theorem dxyn_double_draw (mem : Nat → Nat) (X Y iidx n : Nat) (V : Nat → Nat)
    (gfx : Nat → Bool) (hn : n ≤ 32) (hX : X ≠ 0xF) (hY : Y ≠ 0xF) :
    (drawSprite mem X Y iidx n V gfx).V X = V X
      ∧ (drawSprite mem X Y iidx n V gfx).V Y = V Y
      ∧ (∀ p, (drawSprite mem X Y iidx n (drawSprite mem X Y iidx n V gfx).V
            (drawSprite mem X Y iidx n V gfx).g).g p = gfx p)
      ∧ ((∃ p, gfx p = false ∧ (drawSprite mem X Y iidx n V gfx).g p = true) →
          (drawSprite mem X Y iidx n (drawSprite mem X Y iidx n V gfx).V
            (drawSprite mem X Y iidx n V gfx).g).V 0xF = 1) := by
  have hd1X : (drawSprite mem X Y iidx n V gfx).V X = V X := by
    unfold drawSprite
    rw [drawRows_V mem X Y iidx X hX]
    simp [upd, hX]
  have hd1Y : (drawSprite mem X Y iidx n V gfx).V Y = V Y := by
    unfold drawSprite
    rw [drawRows_V mem X Y iidx Y hY]
    simp [upd, hY]
  have hg1 : ∀ p, (drawSprite mem X Y iidx n V gfx).g p =
      xor (gfx p) (rowsMask mem (V X % 256) (V Y % 256) iidx (List.range n) p) := by
    intro p
    unfold drawSprite
    exact drawRows_g mem X Y iidx (V X) (V Y) hX hY (List.range n)
      ⟨gfx, upd V 0xF 0, false⟩ p (by simp [upd, hX]) (by simp [upd, hY])
  have hg2 : ∀ p, (drawSprite mem X Y iidx n (drawSprite mem X Y iidx n V gfx).V
        (drawSprite mem X Y iidx n V gfx).g).g p =
      xor ((drawSprite mem X Y iidx n V gfx).g p)
        (rowsMask mem (V X % 256) (V Y % 256) iidx (List.range n) p) := by
    intro p
    conv_lhs => rw [drawSprite]
    refine drawRows_g mem X Y iidx (V X) (V Y) hX hY (List.range n) _ p ?_ ?_
    · simp [upd, hX, hd1X]
    · simp [upd, hY, hd1Y]
  refine ⟨hd1X, hd1Y, ?_, ?_⟩
  · intro p
    rw [hg2, hg1]
    generalize gfx p = a
    generalize rowsMask mem (V X % 256) (V Y % 256) iidx (List.range n) p = m
    cases a <;> cases m <;> rfl
  · rintro ⟨p, hgf, hp1⟩
    have hM : rowsMask mem (V X % 256) (V Y % 256) iidx (List.range n) p = true := by
      have h1 := hp1
      rw [hg1, hgf, Bool.false_xor] at h1
      exact h1
    obtain ⟨i, hi, hmi⟩ :=
      rowsMask_exists mem (V X % 256) (V Y % 256) iidx (List.range n) p hM
    have huniq : ∀ i2 ∈ List.range n,
        rowMask (V X % 256) ((V Y % 256 + i2) % 32) (mem (iidx + i2) % 256) 7 p =
          true → i2 = i := by
      intro i2 h2 hm2
      have hy1 := rowMask_row (V X % 256) ((V Y % 256 + i) % 32)
        (mem (iidx + i) % 256) 7 p hmi
      have hy2 := rowMask_row (V X % 256) ((V Y % 256 + i2) % 32)
        (mem (iidx + i2) % 256) 7 p hm2
      have hi1 : i < n := List.mem_range.mp hi
      have hi2 : i2 < n := List.mem_range.mp h2
      omega
    conv_lhs => rw [drawSprite]
    refine drawRows_vf_collide mem X Y iidx (V X) (V Y) hX hY (List.range n)
      _ p i ?_ ?_ hi hmi huniq hp1
    · simp [upd, hX, hd1X]
    · simp [upd, hY, hd1Y]

/-- A sprite memory holding the byte `0x80` (one set bit) everywhere. -/
def fullBitMem : Nat → Nat := fun _ => 0x80

/-- An all-off display. -/
def blankGfx : Nat → Bool := fun _ => false

/-- An all-zero register file. -/
def zeroV : Nat → Nat := fun _ => 0

/-- Witness for the amended C9: a one-row `0x80` sprite at registers
`X = 0`, `Y = 1` drawn twice on a blank display. -/
theorem dxyn_double_draw_witness :
    (drawSprite fullBitMem 0 1 0 1 zeroV blankGfx).V 0 = zeroV 0
      ∧ (drawSprite fullBitMem 0 1 0 1 zeroV blankGfx).V 1 = zeroV 1
      ∧ (∀ p, (drawSprite fullBitMem 0 1 0 1
            (drawSprite fullBitMem 0 1 0 1 zeroV blankGfx).V
            (drawSprite fullBitMem 0 1 0 1 zeroV blankGfx).g).g p = blankGfx p)
      ∧ ((∃ p, blankGfx p = false ∧
            (drawSprite fullBitMem 0 1 0 1 zeroV blankGfx).g p = true) →
          (drawSprite fullBitMem 0 1 0 1
            (drawSprite fullBitMem 0 1 0 1 zeroV blankGfx).V
            (drawSprite fullBitMem 0 1 0 1 zeroV blankGfx).g).V 0xF = 1) :=
  dxyn_double_draw fullBitMem 0 1 0 1 zeroV blankGfx (by norm_num) (by decide)
    (by decide)

end Chip8
